import Mathlib

/-!
Shallow embedding of the roll-call roster system (`src/system.cpp`,
class `RosterManager`) and proofs of its specified properties.

Modelling conventions:
* `std::vector<Student> students_` becomes `List Student`; pool handles are
  `Nat` indices into that list.
* `std::unordered_map<std::string, std::deque<std::size_t>> groupPools_`
  becomes a total function `String → List Nat`; an absent key and a key mapped
  to the empty deque are observationally identical in the source (lookups go
  through `operator[]`, which default-inserts, and `refillGroupPool` erases a
  key exactly when its pool would be empty), so both are modelled as `[]`.
* The Mersenne twister `rng_` is not modelled; every call of `std::shuffle`
  is replaced by an explicit function argument `sh : List Nat → List Nat`,
  and theorems assume `ValidSh sh` (the output is a permutation of the input).
* Wall-clock timestamps in history records are omitted.
-/

set_option autoImplicit false

namespace Roster

/-- An entity of the Entity Store (`RosterManager::Student`). -/
structure Student where
  name : String
  group : String
  callCount : Nat
deriving Repr, DecidableEq

/-- A record of the History Log (`RosterManager::CallRecord`); the wall-clock
timestamp is omitted from the model. -/
structure CallRecord where
  name : String
  group : String
deriving Repr, DecidableEq

/-- Import statistics (`RosterManager::ImportStats`). -/
structure ImportStats where
  added : Nat
  duplicates : Nat
  malformed : Nat
deriving Repr, DecidableEq

/-- The default `Student` used to make list indexing total; it is never
reached from reachable states (see the pool-validity invariant). -/
def dummyStudent : Student := ⟨"", "", 0⟩

/-- The mutable state of a `RosterManager`. -/
structure RosterState where
  students : List Student
  groupPools : String → List Nat
  globalPool : List Nat
  history : List CallRecord

/-- The state of a freshly constructed `RosterManager`. -/
def initState : RosterState :=
  { students := [], groupPools := fun _ => [], globalPool := [], history := [] }

/-- Point update of the group-pool map (assignment to `groupPools_[g]`,
or erasure when the new pool is `[]`). -/
def setGroupPool (s : RosterState) (g : String) (p : List Nat) : RosterState :=
  { s with groupPools := fun g2 => if g2 = g then p else s.groupPools g2 }

/-- Model of `RosterManager::resetCycle`: clear the global pool and all group pools. -/
def resetCycle (s : RosterState) : RosterState :=
  { s with globalPool := [], groupPools := fun _ => [] }

/-- Model of `RosterManager::clearHistory`. -/
def clearHistory (s : RosterState) : RosterState :=
  { s with history := [] }

/-- Model of `RosterManager::addStudent`: fail on a duplicate name, otherwise append a
new student with `callCount = 0` and, when `refreshPools` is set, reset the
cycle. -/
def addStudent (s : RosterState) (name group : String) (refreshPools : Bool) :
    Bool × RosterState :=
  if s.students.any (fun st => st.name == name) then
    (false, s)
  else
    let s2 := { s with students := s.students ++ [⟨name, group, 0⟩] }
    (true, if refreshPools then resetCycle s2 else s2)

/-- Model of `RosterManager::consumeIndex`, after the caller has popped `idx` from the
front of the pool: increment the student's counter, append a history record,
and return the updated student. -/
def consumeIndex (s : RosterState) (idx : Nat) : Student × RosterState :=
  let st := s.students.getD idx dummyStudent
  let st2 : Student := { st with callCount := st.callCount + 1 }
  (st2, { s with
            students := s.students.set idx st2
            history := s.history ++ [⟨st2.name, st2.group⟩] })

/-- The indices collected by the loop in `RosterManager::refillGroupPool`:
all in-bounds indices whose student belongs to the given group. -/
def groupIndices (students : List Student) (group : String) : List Nat :=
  (List.range students.length).filter
    (fun i => (students.getD i dummyStudent).group == group)

/-- Model of `RosterManager::refillGlobalPool`; `sh` stands for `std::shuffle` with the
current generator state. -/
def refillGlobalPool (s : RosterState) (sh : List Nat → List Nat) : RosterState :=
  { s with globalPool := sh (List.range s.students.length) }

/-- Model of `RosterManager::refillGroupPool`: collect the indices of the group's
members; erase the pool when there are none, otherwise install a shuffle of
them. -/
def refillGroupPool (s : RosterState) (group : String) (sh : List Nat → List Nat) :
    RosterState :=
  let indices := groupIndices s.students group
  if indices.isEmpty then setGroupPool s group []
  else setGroupPool s group (sh indices)

/-- Model of `RosterManager::pickRandom`: empty store yields nothing; otherwise address
the scope's pool, replenishing it first when empty, and consume its front. -/
def pickRandom (s : RosterState) (group : Option String) (sh : List Nat → List Nat) :
    Option Student × RosterState :=
  if s.students.isEmpty then (none, s)
  else
    match group with
    | some g =>
        let s1 := if (s.groupPools g).isEmpty then refillGroupPool s g sh else s
        match s1.groupPools g with
        | [] => (none, s1)
        | idx :: rest =>
            let s2 := setGroupPool s1 g rest
            let (st, s3) := consumeIndex s2 idx
            (some st, s3)
    | none =>
        let s1 := if s.globalPool.isEmpty then refillGlobalPool s sh else s
        match s1.globalPool with
        | [] => (none, s1)
        | idx :: rest =>
            let s2 := { s1 with globalPool := rest }
            let (st, s3) := consumeIndex s2 idx
            (some st, s3)

/-- The character set " \t\r\n" used by `RosterManager::trim`. -/
def isSpaceChar (c : Char) : Bool :=
  c == ' ' || c == '\t' || c == '\r' || c == '\n'

/-- Model of `RosterManager::trim`: strip the characters of " \t\r\n" from both ends. -/
def trim (text : String) : String :=
  ⟨((text.data.dropWhile isSpaceChar).reverse.dropWhile isSpaceChar).reverse⟩

/-- One iteration of the `while (std::getline(...))` loop body of
`RosterManager::loadFromStream`. -/
def processLine (acc : RosterState × ImportStats) (line : String) :
    RosterState × ImportStats :=
  let (s, stats) := acc
  let trimmed := trim line
  match trimmed.data with
  | [] => (s, stats)
  | c :: _ =>
      if c = '#' then (s, stats)
      else
        let cs := trimmed.data
        let before := cs.takeWhile (fun ch => ch != ',')
        if before.length = cs.length then
          (s, { stats with malformed := stats.malformed + 1 })
        else
          let name := trim ⟨before⟩
          let group := trim ⟨cs.drop (before.length + 1)⟩
          if name.data.isEmpty || group.data.isEmpty then
            (s, { stats with malformed := stats.malformed + 1 })
          else
            let (ok, s2) := addStudent s name group false
            if ok then (s2, { stats with added := stats.added + 1 })
            else (s2, { stats with duplicates := stats.duplicates + 1 })

/-- Model of `RosterManager::loadFromStream` over the lines of the input. -/
def loadFromStream (s : RosterState) (lines : List String) :
    RosterState × ImportStats :=
  lines.foldl processLine (s, ⟨0, 0, 0⟩)

/-- Model of `RosterManager::importFromFile` on a source that opens successfully,
given its lines: load every line, then reset the cycle. -/
def importFromFile (s : RosterState) (lines : List String) :
    RosterState × ImportStats :=
  let (s2, stats) := loadFromStream s lines
  (resetCycle s2, stats)

/-- The record-emitting loop of `RosterManager::printHistory`: walk the
reversed history, counting emitted records; after emitting a record, stop as
soon as the count reaches `limit` when `limit` is nonzero. -/
def historyTake (limit : Nat) : List CallRecord → Nat → List CallRecord
  | [], _ => []
  | r :: rest, count =>
      if limit ≠ 0 ∧ count + 1 ≥ limit then [r]
      else r :: historyTake limit rest (count + 1)

/-- The sequence of records printed by `RosterManager::printHistory limit`:
most recent first, limited to `limit` when `limit` is nonzero. -/
def queryHistory (s : RosterState) (limit : Nat) : List CallRecord :=
  historyTake limit s.history.reverse 0

/-- The operations of the system; `draw` carries the shuffle function
standing for `std::shuffle` with the generator state at that call. -/
inductive Op where
  | insert (name group : String) (refreshPools : Bool)
  | importL (lines : List String)
  | draw (group : Option String) (sh : List Nat → List Nat)
  | reset
  | clearHist

/-- Apply one operation to a state, discarding the operation's result. -/
def applyOp (s : RosterState) : Op → RosterState
  | .insert n g rp => (addStudent s n g rp).2
  | .importL lines => (importFromFile s lines).1
  | .draw g sh => (pickRandom s g sh).2
  | .reset => resetCycle s
  | .clearHist => clearHistory s

/-- Run a sequence of operations from the empty store. -/
def run (ops : List Op) : RosterState := ops.foldl applyOp initState

/-- A shuffle is valid when its output is a permutation of its input. -/
def ValidSh (sh : List Nat → List Nat) : Prop := ∀ l : List Nat, (sh l).Perm l

/-- Validity of one operation: its shuffles permute. -/
def ValidOp : Op → Prop
  | .draw _ sh => ValidSh sh
  | _ => True

/-- A state is reachable when some valid operation sequence produces it. -/
def Reachable (s : RosterState) : Prop :=
  ∃ ops : List Op, (∀ op ∈ ops, ValidOp op) ∧ run ops = s

/-- Perform a sequence of draws against one fixed scope, collecting the
results in order. -/
def drawSeq (group : Option String) :
    RosterState → List (List Nat → List Nat) → List (Option Student) × RosterState
  | s, [] => ([], s)
  | s, sh :: rest =>
      let p := pickRandom s group sh
      let q := drawSeq group p.2 rest
      (p.1 :: q.1, q.2)

/-- Total of all call counters in the store. -/
def sumCallCounts (students : List Student) : Nat :=
  (students.map Student.callCount).sum

/-- A pool is well formed for a store: duplicate-free and in bounds. -/
def PoolOK (students : List Student) (p : List Nat) : Prop :=
  p.Nodup ∧ ∀ i ∈ p, i < students.length

/-- All pools of a state are well formed. -/
def PoolsOK (s : RosterState) : Prop :=
  PoolOK s.students s.globalPool ∧ ∀ g, PoolOK s.students (s.groupPools g)

/-- Student names are pairwise distinct. -/
def NamesOK (s : RosterState) : Prop := (s.students.map Student.name).Nodup

/-- The structural invariant: pools well formed, names unique. -/
def StInv (s : RosterState) : Prop := PoolsOK s ∧ NamesOK s

/-- The pool addressed by a scope (`nullopt` = global, `some g` = group). -/
def poolOf (s : RosterState) : Option String → List Nat
  | none => s.globalPool
  | some g => s.groupPools g

/-- Overwrite the pool addressed by a scope. -/
def setPool (s : RosterState) (scope : Option String) (p : List Nat) :
    RosterState :=
  match scope with
  | none => { s with globalPool := p }
  | some g => setGroupPool s g p

/-- The live membership of a scope, as handles: every index for the global
scope, the group's indices for a group scope. -/
def scopeIndices (s : RosterState) : Option String → List Nat
  | none => List.range s.students.length
  | some g => groupIndices s.students g

end Roster

namespace Roster

/-! ### Basic helper lemmas -/

lemma any_name_true (s : RosterState) (n : String)
    (h : ∃ st ∈ s.students, st.name = n) :
    s.students.any (fun st => st.name == n) = true := by
  rcases h with ⟨st, hmem, hname⟩
  exact List.any_eq_true.mpr ⟨st, hmem, by simp [hname]⟩

lemma any_name_false (s : RosterState) (n : String)
    (h : ∀ st ∈ s.students, st.name ≠ n) :
    s.students.any (fun st => st.name == n) = false := by
  rw [Bool.eq_false_iff]
  intro hc
  rcases List.any_eq_true.mp hc with ⟨st, hmem, hname⟩
  exact h st hmem (by simpa using hname)

lemma addStudent_dup (s : RosterState) (n g : String) (rp : Bool)
    (h : ∃ st ∈ s.students, st.name = n) :
    addStudent s n g rp = (false, s) := by
  simp [addStudent, any_name_true s n h]

lemma addStudent_new (s : RosterState) (n g : String) (rp : Bool)
    (h : ∀ st ∈ s.students, st.name ≠ n) :
    addStudent s n g rp =
      (true,
        if rp then resetCycle { s with students := s.students ++ [⟨n, g, 0⟩] }
        else { s with students := s.students ++ [⟨n, g, 0⟩] }) := by
  simp [addStudent, any_name_false s n h]

end Roster

namespace Roster

lemma setGroupPool_setGroupPool (s : RosterState) (g : String) (p q : List Nat) :
    setGroupPool (setGroupPool s g p) g q = setGroupPool s g q := by
  unfold setGroupPool
  congr 1
  funext g2
  by_cases h : g2 = g <;> simp [h]

lemma pickRandom_empty_store (s : RosterState) (g : Option String)
    (sh : List Nat → List Nat) (h : s.students.isEmpty = true) :
    pickRandom s g sh = (none, s) := by
  simp [pickRandom, h]

lemma pickRandom_global_cons (s : RosterState) (sh : List Nat → List Nat)
    (hs : s.students.isEmpty = false) (idx : Nat) (rest : List Nat)
    (hp : s.globalPool = idx :: rest) :
    pickRandom s none sh =
      (some (consumeIndex { s with globalPool := rest } idx).1,
       (consumeIndex { s with globalPool := rest } idx).2) := by
  simp [pickRandom, hs, hp]

lemma pickRandom_global_refill_cons (s : RosterState) (sh : List Nat → List Nat)
    (hs : s.students.isEmpty = false) (idx : Nat) (rest : List Nat)
    (hp : s.globalPool = [])
    (hr : sh (List.range s.students.length) = idx :: rest) :
    pickRandom s none sh =
      (some (consumeIndex { s with globalPool := rest } idx).1,
       (consumeIndex { s with globalPool := rest } idx).2) := by
  simp [pickRandom, hs, hp, refillGlobalPool, hr]

lemma pickRandom_group_cons (s : RosterState) (g : String)
    (sh : List Nat → List Nat) (hs : s.students.isEmpty = false)
    (idx : Nat) (rest : List Nat) (hp : s.groupPools g = idx :: rest) :
    pickRandom s (some g) sh =
      (some (consumeIndex (setGroupPool s g rest) idx).1,
       (consumeIndex (setGroupPool s g rest) idx).2) := by
  simp [pickRandom, hs, hp]

lemma groupPools_setGroupPool_self (s : RosterState) (g : String) (p : List Nat) :
    (setGroupPool s g p).groupPools g = p := by
  simp [setGroupPool]

lemma groupPools_setGroupPool_ne (s : RosterState) (g g2 : String) (p : List Nat)
    (h : g2 ≠ g) : (setGroupPool s g p).groupPools g2 = s.groupPools g2 := by
  simp [setGroupPool, h]

lemma pickRandom_group_refill_cons (s : RosterState) (g : String)
    (sh : List Nat → List Nat) (hs : s.students.isEmpty = false)
    (idx : Nat) (rest : List Nat) (hp : s.groupPools g = [])
    (hgi : groupIndices s.students g ≠ [])
    (hr : sh (groupIndices s.students g) = idx :: rest) :
    pickRandom s (some g) sh =
      (some (consumeIndex (setGroupPool s g rest) idx).1,
       (consumeIndex (setGroupPool s g rest) idx).2) := by
  have hni : (groupIndices s.students g).isEmpty = false := by
    cases hgi2 : groupIndices s.students g with
    | nil => exact absurd hgi2 hgi
    | cons a l => simp
  simp [pickRandom, hs, hp, refillGroupPool, hni, hr,
    groupPools_setGroupPool_self, setGroupPool_setGroupPool]

lemma pickRandom_group_refill_empty (s : RosterState) (g : String)
    (sh : List Nat → List Nat) (hs : s.students.isEmpty = false)
    (hp : s.groupPools g = []) (hni : groupIndices s.students g = []) :
    pickRandom s (some g) sh = (none, setGroupPool s g []) := by
  simp [pickRandom, hs, hp, refillGroupPool, hni, groupPools_setGroupPool_self]

end Roster

namespace Roster

/-! ### Pool well-formedness helpers -/

lemma poolOK_nil (l : List Student) : PoolOK l [] :=
  ⟨List.nodup_nil, by simp⟩

lemma poolOK_tail {l : List Student} {i : Nat} {p : List Nat}
    (h : PoolOK l (i :: p)) : PoolOK l p :=
  ⟨h.1.of_cons, fun j hj => h.2 j (List.mem_cons_of_mem i hj)⟩

lemma poolOK_len_congr {l l2 : List Student} {p : List Nat}
    (hlen : l.length = l2.length) (h : PoolOK l p) : PoolOK l2 p :=
  ⟨h.1, fun i hi => hlen ▸ h.2 i hi⟩

lemma poolOK_perm {l : List Student} {p q : List Nat}
    (hpq : p.Perm q) (h : PoolOK l q) : PoolOK l p :=
  ⟨hpq.nodup_iff.mpr h.1, fun i hi => h.2 i (hpq.mem_iff.mp hi)⟩

lemma poolOK_range (l : List Student) : PoolOK l (List.range l.length) :=
  ⟨List.nodup_range _, fun _ hi => List.mem_range.mp hi⟩

lemma poolOK_groupIndices (l : List Student) (g : String) :
    PoolOK l (groupIndices l g) :=
  ⟨List.Nodup.filter _ (List.nodup_range _),
   fun _ hi => List.mem_range.mp (List.mem_of_mem_filter hi)⟩

/-! ### Store-content helpers -/

lemma getD_cons_succ {α : Type} (a : α) (l : List α) (i : Nat) (d : α) :
    (a :: l).getD (i + 1) d = l.getD i d := rfl

lemma map_set_of_eval_eq {β : Type} (f : Student → β) (l : List Student)
    (i : Nat) (a : Student) (ha : f a = f (l.getD i dummyStudent)) :
    (l.set i a).map f = l.map f := by
  induction l generalizing i with
  | nil => simp
  | cons b l ih =>
      cases i with
      | zero => simp at ha; simp [ha]
      | succ i => simp only [List.set_cons_succ, List.map_cons]
                  rw [ih i (by simpa using ha)]

lemma sumCallCounts_set_inc (l : List Student) (i : Nat) (h : i < l.length) :
    sumCallCounts
      (l.set i { l.getD i dummyStudent with
                   callCount := (l.getD i dummyStudent).callCount + 1 }) =
      sumCallCounts l + 1 := by
  induction l generalizing i with
  | nil => simp at h
  | cons b l ih =>
      cases i with
      | zero => simp [sumCallCounts]; omega
      | succ i =>
          have hi : i < l.length := by simpa using h
          simp only [List.set_cons_succ, getD_cons_succ, sumCallCounts,
            List.map_cons, List.sum_cons]
          have := ih i hi
          simp only [sumCallCounts] at this
          omega

end Roster

namespace Roster

/-! ### Effect of consuming one handle -/

lemma consumeIndex_spec (s : RosterState) (idx : Nat)
    (hidx : idx < s.students.length) (hp : PoolsOK s) :
    PoolsOK (consumeIndex s idx).2 ∧
    (consumeIndex s idx).2.students.length = s.students.length ∧
    (consumeIndex s idx).2.students.map Student.name =
      s.students.map Student.name ∧
    (consumeIndex s idx).2.students.map Student.group =
      s.students.map Student.group ∧
    sumCallCounts (consumeIndex s idx).2.students =
      sumCallCounts s.students + 1 ∧
    (consumeIndex s idx).2.history =
      s.history ++ [⟨(consumeIndex s idx).1.name, (consumeIndex s idx).1.group⟩] ∧
    (consumeIndex s idx).2.globalPool = s.globalPool ∧
    (consumeIndex s idx).2.groupPools = s.groupPools := by
  have hlen : (consumeIndex s idx).2.students.length = s.students.length := by
    simp [consumeIndex]
  refine ⟨⟨poolOK_len_congr hlen.symm hp.1,
           fun g => poolOK_len_congr hlen.symm (hp.2 g)⟩,
          hlen, ?_, ?_, ?_, ?_, rfl, rfl⟩
  · exact map_set_of_eval_eq Student.name _ _ _ rfl
  · exact map_set_of_eval_eq Student.group _ _ _ rfl
  · exact sumCallCounts_set_inc s.students idx hidx
  · simp [consumeIndex]

end Roster

namespace Roster

lemma poolsOK_setGroupPool {s : RosterState} {g : String} {p : List Nat}
    (h : PoolsOK s) (hr : PoolOK s.students p) : PoolsOK (setGroupPool s g p) := by
  refine ⟨h.1, fun g2 => ?_⟩
  by_cases hg : g2 = g
  · subst hg; rw [groupPools_setGroupPool_self]; exact hr
  · rw [groupPools_setGroupPool_ne _ _ _ _ hg]; exact h.2 g2

/-- Master lemma on one draw: pools stay well formed; the store keeps its
length, names and groups; a failed draw leaves counters and history alone; a
successful draw bumps the counter total by one and appends one record naming
the returned student. -/
lemma pickRandom_spec (s : RosterState) (g : Option String)
    (sh : List Nat → List Nat) (hsh : ValidSh sh) (hp : PoolsOK s) :
    PoolsOK (pickRandom s g sh).2 ∧
    (pickRandom s g sh).2.students.length = s.students.length ∧
    (pickRandom s g sh).2.students.map Student.name =
      s.students.map Student.name ∧
    (pickRandom s g sh).2.students.map Student.group =
      s.students.map Student.group ∧
    ((pickRandom s g sh).1 = none →
      sumCallCounts (pickRandom s g sh).2.students = sumCallCounts s.students ∧
      (pickRandom s g sh).2.history = s.history) ∧
    (∀ st, (pickRandom s g sh).1 = some st →
      sumCallCounts (pickRandom s g sh).2.students =
        sumCallCounts s.students + 1 ∧
      (pickRandom s g sh).2.history = s.history ++ [⟨st.name, st.group⟩]) := by
  by_cases hse : s.students.isEmpty = true
  · rw [pickRandom_empty_store s g sh hse]
    refine ⟨hp, rfl, rfl, rfl, fun _ => ⟨rfl, rfl⟩, ?_⟩
    intro st hst
    simp at hst
  · have hse2 : s.students.isEmpty = false := Bool.eq_false_iff.mpr hse
    cases g with
    | none =>
        cases hgp : s.globalPool with
        | cons i rest =>
            have hpok : PoolOK s.students (i :: rest) := hgp ▸ hp.1
            have hi : i < s.students.length :=
              hpok.2 i (List.mem_cons_self i rest)
            have hpok2 : PoolsOK { s with globalPool := rest } :=
              ⟨poolOK_tail hpok, hp.2⟩
            rw [pickRandom_global_cons s sh hse2 i rest hgp]
            obtain ⟨c1, c2, c3, c4, c5, c6, -, -⟩ :=
              consumeIndex_spec { s with globalPool := rest } i hi hpok2
            refine ⟨c1, c2, c3, c4, ?_, ?_⟩
            · intro h; simp at h
            · intro st hst
              have hst2 : (consumeIndex { s with globalPool := rest } i).1 = st := by
                simpa using hst
              subst hst2
              exact ⟨c5, c6⟩
        | nil =>
            cases hr : sh (List.range s.students.length) with
            | nil =>
                exfalso
                have hperm := hsh (List.range s.students.length)
                rw [hr] at hperm
                have h0 : List.range s.students.length = [] := hperm.symm.eq_nil
                have hlen0 : s.students.length = 0 := by
                  simpa [List.range_eq_nil] using h0
                rw [List.isEmpty_iff, List.length_eq_zero.mp hlen0] at hse
                exact hse rfl
            | cons i rest =>
                have hperm := hsh (List.range s.students.length)
                rw [hr] at hperm
                have hpok : PoolOK s.students (i :: rest) :=
                  poolOK_perm hperm (poolOK_range s.students)
                have hi : i < s.students.length :=
                  hpok.2 i (List.mem_cons_self i rest)
                have hpok2 : PoolsOK { s with globalPool := rest } :=
                  ⟨poolOK_tail hpok, hp.2⟩
                rw [pickRandom_global_refill_cons s sh hse2 i rest hgp hr]
                obtain ⟨c1, c2, c3, c4, c5, c6, -, -⟩ :=
                  consumeIndex_spec { s with globalPool := rest } i hi hpok2
                refine ⟨c1, c2, c3, c4, ?_, ?_⟩
                · intro h; simp at h
                · intro st hst
                  have hst2 :
                      (consumeIndex { s with globalPool := rest } i).1 = st := by
                    simpa using hst
                  subst hst2
                  exact ⟨c5, c6⟩
    | some gr =>
        cases hgp : s.groupPools gr with
        | cons i rest =>
            have hpok : PoolOK s.students (i :: rest) := hgp ▸ hp.2 gr
            have hi : i < s.students.length :=
              hpok.2 i (List.mem_cons_self i rest)
            have hpok2 : PoolsOK (setGroupPool s gr rest) :=
              poolsOK_setGroupPool hp (poolOK_tail hpok)
            rw [pickRandom_group_cons s gr sh hse2 i rest hgp]
            obtain ⟨c1, c2, c3, c4, c5, c6, -, -⟩ :=
              consumeIndex_spec (setGroupPool s gr rest) i hi hpok2
            refine ⟨c1, c2, c3, c4, ?_, ?_⟩
            · intro h; simp at h
            · intro st hst
              have hst2 : (consumeIndex (setGroupPool s gr rest) i).1 = st := by
                simpa using hst
              subst hst2
              exact ⟨c5, c6⟩
        | nil =>
            cases hgi : groupIndices s.students gr with
            | nil =>
                rw [pickRandom_group_refill_empty s gr sh hse2 hgp hgi]
                refine ⟨poolsOK_setGroupPool hp (poolOK_nil _), rfl, rfl, rfl,
                        fun _ => ⟨rfl, rfl⟩, ?_⟩
                intro st hst
                simp at hst
            | cons j l =>
                cases hr : sh (groupIndices s.students gr) with
                | nil =>
                    exfalso
                    have hperm := hsh (groupIndices s.students gr)
                    rw [hr] at hperm
                    have h0 := hperm.symm.eq_nil
                    rw [hgi] at h0
                    exact List.cons_ne_nil j l h0
                | cons i rest =>
                    have hperm := hsh (groupIndices s.students gr)
                    rw [hr] at hperm
                    have hpok : PoolOK s.students (i :: rest) :=
                      poolOK_perm hperm (poolOK_groupIndices s.students gr)
                    have hi : i < s.students.length :=
                      hpok.2 i (List.mem_cons_self i rest)
                    have hpok2 : PoolsOK (setGroupPool s gr rest) :=
                      poolsOK_setGroupPool hp (poolOK_tail hpok)
                    rw [pickRandom_group_refill_cons s gr sh hse2 i rest hgp
                        (by rw [hgi]; exact List.cons_ne_nil j l) hr]
                    obtain ⟨c1, c2, c3, c4, c5, c6, -, -⟩ :=
                      consumeIndex_spec (setGroupPool s gr rest) i hi hpok2
                    refine ⟨c1, c2, c3, c4, ?_, ?_⟩
                    · intro h; simp at h
                    · intro st hst
                      have hst2 :
                          (consumeIndex (setGroupPool s gr rest) i).1 = st := by
                        simpa using hst
                      subst hst2
                      exact ⟨c5, c6⟩

end Roster

namespace Roster

/-! ### The bulk loader's effect on the store -/

/-- Each line either leaves the store untouched or appends one fresh student
with a zero counter (pool invalidation suppressed). -/
lemma processLine_spec (s : RosterState) (stats : ImportStats) (line : String) :
    (processLine (s, stats) line).1 = s ∨
    ∃ n g, s.students.any (fun st => st.name == n) = false ∧
      (processLine (s, stats) line).1 =
        { s with students := s.students ++ [⟨n, g, 0⟩] } := by
  cases htd : (trim line).data with
  | nil => left; simp [processLine, htd]
  | cons c cs2 =>
      by_cases hc : c = '#'
      · left; simp [processLine, htd, hc]
      · by_cases h1 : ((c :: cs2).takeWhile fun ch => ch != ',').length =
            cs2.length + 1
        · left; simp [processLine, htd, hc, h1]
        · by_cases h2 : (trim ⟨(c :: cs2).takeWhile fun ch => ch != ','⟩).data = [] ∨
              (trim ⟨cs2.drop ((c :: cs2).takeWhile fun ch => ch != ',').length⟩).data = []
          · left; simp [processLine, htd, hc, h1, h2]
          · by_cases h3 : s.students.any (fun st =>
                st.name == trim ⟨(c :: cs2).takeWhile fun ch => ch != ','⟩) = true
            · left
              simp [processLine, htd, hc, h1, h2, addStudent, h3]
            · right
              refine ⟨trim ⟨(c :: cs2).takeWhile fun ch => ch != ','⟩,
                      trim ⟨cs2.drop ((c :: cs2).takeWhile fun ch => ch != ',').length⟩,
                      Bool.eq_false_iff.mpr h3, ?_⟩
              simp [processLine, htd, hc, h1, h2, addStudent, h3]

end Roster

namespace Roster

/-! ### Reachability invariant -/

lemma poolOK_append (l l2 : List Student) (p : List Nat) (h : PoolOK l p) :
    PoolOK (l ++ l2) p :=
  ⟨h.1, fun i hi => lt_of_lt_of_le (h.2 i hi) (by simp)⟩

lemma stInv_append {s : RosterState} (n g : String)
    (hnew : s.students.any (fun st => st.name == n) = false) (h : StInv s) :
    StInv { s with students := s.students ++ [⟨n, g, 0⟩] } := by
  refine ⟨⟨poolOK_append _ _ _ h.1.1, fun g2 => poolOK_append _ _ _ (h.1.2 g2)⟩, ?_⟩
  have hni : n ∉ s.students.map Student.name := by
    intro hmem
    rcases List.mem_map.mp hmem with ⟨st, hst, hname⟩
    have hx : s.students.any (fun st => st.name == n) = true :=
      any_name_true s n ⟨st, hst, hname⟩
    rw [hnew] at hx
    exact Bool.false_ne_true hx
  show ((s.students ++ [(⟨n, g, 0⟩ : Student)]).map Student.name).Nodup
  rw [List.map_append, List.nodup_append]
  refine ⟨h.2, List.nodup_singleton _, ?_⟩
  intro a ha hb
  simp only [List.map_cons, List.map_nil, List.mem_singleton] at hb
  subst hb
  exact hni ha

end Roster

namespace Roster

lemma processLine_pres (s : RosterState) (stats : ImportStats) (line : String)
    (h : StInv s) :
    StInv (processLine (s, stats) line).1 ∧
    sumCallCounts (processLine (s, stats) line).1.students =
      sumCallCounts s.students ∧
    (processLine (s, stats) line).1.history = s.history ∧
    (processLine (s, stats) line).1.globalPool = s.globalPool ∧
    (processLine (s, stats) line).1.groupPools = s.groupPools := by
  rcases processLine_spec s stats line with heq | ⟨n, g, hnew, heq⟩
  · rw [heq]; exact ⟨h, rfl, rfl, rfl, rfl⟩
  · rw [heq]
    refine ⟨stInv_append n g hnew h, ?_, rfl, rfl, rfl⟩
    simp [sumCallCounts]

lemma loadFromStream_pres (lines : List String) :
    ∀ (s : RosterState) (stats : ImportStats), StInv s →
    StInv (lines.foldl processLine (s, stats)).1 ∧
    sumCallCounts (lines.foldl processLine (s, stats)).1.students =
      sumCallCounts s.students ∧
    (lines.foldl processLine (s, stats)).1.history = s.history ∧
    (lines.foldl processLine (s, stats)).1.globalPool = s.globalPool ∧
    (lines.foldl processLine (s, stats)).1.groupPools = s.groupPools := by
  induction lines with
  | nil => intro s stats h; exact ⟨h, rfl, rfl, rfl, rfl⟩
  | cons line lines ih =>
      intro s stats h
      obtain ⟨h1, h2, h3, h4, h5⟩ := processLine_pres s stats line h
      rw [List.foldl_cons]
      rcases hpl : processLine (s, stats) line with ⟨s2, stats2⟩
      rw [hpl] at h1 h2 h3 h4 h5
      obtain ⟨k1, k2, k3, k4, k5⟩ := ih s2 stats2 h1
      exact ⟨k1, by rw [k2, h2], by rw [k3, h3], by rw [k4, h4], by rw [k5, h5]⟩

lemma poolsOK_resetCycle (s : RosterState) : PoolsOK (resetCycle s) := by
  refine ⟨poolOK_nil _, fun g => ?_⟩
  show PoolOK (resetCycle s).students ((resetCycle s).groupPools g)
  exact poolOK_nil _

lemma applyOp_pres (s : RosterState) (op : Op) (h : StInv s) (hv : ValidOp op) :
    StInv (applyOp s op) := by
  cases op with
  | insert n g rp =>
      show StInv (addStudent s n g rp).2
      by_cases hdup : s.students.any (fun st => st.name == n) = true
      · simp [addStudent, hdup]; exact h
      · have hnew : s.students.any (fun st => st.name == n) = false :=
          Bool.eq_false_iff.mpr hdup
        simp only [addStudent, hnew, Bool.false_eq_true, if_false]
        cases rp with
        | true =>
            simp only [if_true]
            refine ⟨poolsOK_resetCycle _, ?_⟩
            exact (stInv_append n g hnew h).2
        | false =>
            simp only [Bool.false_eq_true, if_false]
            exact stInv_append n g hnew h
  | importL lines =>
      show StInv (importFromFile s lines).1
      have hload := loadFromStream_pres lines s ⟨0, 0, 0⟩ h
      simp only [importFromFile, loadFromStream]
      exact ⟨poolsOK_resetCycle _, hload.1.2⟩
  | draw g sh =>
      have hres := pickRandom_spec s g sh hv h.1
      refine ⟨hres.1, ?_⟩
      show ((pickRandom s g sh).2.students.map Student.name).Nodup
      rw [hres.2.2.1]
      exact h.2
  | reset => exact ⟨poolsOK_resetCycle _, h.2⟩
  | clearHist => exact ⟨h.1, h.2⟩

lemma run_inv_aux (ops : List Op) :
    ∀ s : RosterState, StInv s → (∀ op ∈ ops, ValidOp op) →
      StInv (ops.foldl applyOp s) := by
  induction ops with
  | nil => intro s h _; exact h
  | cons op ops ih =>
      intro s h hv
      rw [List.foldl_cons]
      exact ih (applyOp s op) (applyOp_pres s op h (hv op (List.mem_cons_self op ops)))
        (fun op2 hop2 => hv op2 (List.mem_cons_of_mem op hop2))

lemma stInv_init : StInv initState := by
  refine ⟨⟨poolOK_nil _, fun g => ?_⟩, ?_⟩
  · show PoolOK initState.students (initState.groupPools g)
    exact poolOK_nil _
  · show ((initState.students).map Student.name).Nodup
    exact List.nodup_nil

lemma run_inv (ops : List Op) (hv : ∀ op ∈ ops, ValidOp op) : StInv (run ops) :=
  run_inv_aux ops initState stInv_init hv

end Roster

namespace Roster

/-! ### Counter/history consistency -/

lemma applyOp_sum (s : RosterState) (op : Op) (h : StInv s) (hv : ValidOp op)
    (hnc : op ≠ Op.clearHist)
    (hsum : sumCallCounts s.students = s.history.length) :
    sumCallCounts (applyOp s op).students = (applyOp s op).history.length := by
  cases op with
  | insert n g rp =>
      show sumCallCounts (addStudent s n g rp).2.students =
        (addStudent s n g rp).2.history.length
      by_cases hdup : s.students.any (fun st => st.name == n) = true
      · simp only [addStudent, hdup, if_true]; exact hsum
      · have hnew : s.students.any (fun st => st.name == n) = false :=
          Bool.eq_false_iff.mpr hdup
        simp only [addStudent, hnew, Bool.false_eq_true, if_false]
        cases rp with
        | true => simp only [if_true]; simpa [resetCycle, sumCallCounts] using hsum
        | false => simpa [sumCallCounts] using hsum
  | importL lines =>
      show sumCallCounts (importFromFile s lines).1.students =
        (importFromFile s lines).1.history.length
      have hload := loadFromStream_pres lines s ⟨0, 0, 0⟩ h
      simp only [importFromFile, loadFromStream] at hload ⊢
      show sumCallCounts (resetCycle _).students = (resetCycle _).history.length
      simpa [resetCycle, hload.2.1, hload.2.2.1] using hsum
  | draw g sh =>
      have hres := pickRandom_spec s g sh hv h.1
      show sumCallCounts (pickRandom s g sh).2.students =
        (pickRandom s g sh).2.history.length
      cases hdr : (pickRandom s g sh).1 with
      | none =>
          obtain ⟨h1, h2⟩ := hres.2.2.2.2.1 hdr
          rw [h1, h2, hsum]
      | some st =>
          obtain ⟨h1, h2⟩ := hres.2.2.2.2.2 st hdr
          rw [h1, h2, hsum]
          simp
  | reset => exact hsum
  | clearHist => exact absurd rfl hnc

lemma run_sum_aux (ops : List Op) :
    ∀ s : RosterState, StInv s →
      sumCallCounts s.students = s.history.length →
      (∀ op ∈ ops, ValidOp op) → (∀ op ∈ ops, op ≠ Op.clearHist) →
      sumCallCounts (ops.foldl applyOp s).students =
        (ops.foldl applyOp s).history.length := by
  induction ops with
  | nil => intro s _ hsum _ _; exact hsum
  | cons op ops ih =>
      intro s h hsum hv hnc
      rw [List.foldl_cons]
      exact ih (applyOp s op)
        (applyOp_pres s op h (hv op (List.mem_cons_self op ops)))
        (applyOp_sum s op h (hv op (List.mem_cons_self op ops))
          (hnc op (List.mem_cons_self op ops)) hsum)
        (fun op2 hop2 => hv op2 (List.mem_cons_of_mem op hop2))
        (fun op2 hop2 => hnc op2 (List.mem_cons_of_mem op hop2))

end Roster

namespace Roster

/-! ### Claim C1 -/

/-- C1 counterexample: insert one entity, draw it, then clear the history.
The resulting reachable state (clearHistory allowed, as the claim demands)
has counter total 1 but an empty history, so the claimed invariant fails. -/
theorem sum_history_counterexample :
    (∀ op ∈ [Op.insert "a" "g" true, Op.draw none id, Op.clearHist], ValidOp op) ∧
    sumCallCounts
      (run [Op.insert "a" "g" true, Op.draw none id, Op.clearHist]).students = 1 ∧
    (run [Op.insert "a" "g" true, Op.draw none id, Op.clearHist]).history.length
      = 0 := by
  refine ⟨?_, rfl, rfl⟩
  intro op hop
  rcases List.mem_cons.mp hop with rfl | hop
  · trivial
  rcases List.mem_cons.mp hop with rfl | hop
  · exact fun l => List.Perm.refl l
  rcases List.mem_cons.mp hop with rfl | hop
  · trivial
  · cases hop

/-- C1 (amended): over every sequence of insert, import, draw and resetCycle
operations (clearHistory excluded, since it empties the log without touching
the counters), the counter total equals the history length. -/
theorem counter_history_consistency (ops : List Op)
    (hv : ∀ op ∈ ops, ValidOp op) (hnc : ∀ op ∈ ops, op ≠ Op.clearHist) :
    sumCallCounts (run ops).students = (run ops).history.length :=
  run_sum_aux ops initState stInv_init rfl hv hnc

/-- Witness for C1 (amended) at a concrete operation sequence. -/
theorem counter_history_consistency_witness :
    sumCallCounts (run [Op.insert "a" "g" true, Op.draw none id]).students =
      (run [Op.insert "a" "g" true, Op.draw none id]).history.length := by
  apply counter_history_consistency
  · intro op hop
    rcases List.mem_cons.mp hop with rfl | hop
    · trivial
    rcases List.mem_cons.mp hop with rfl | hop
    · exact fun l => List.Perm.refl l
    · cases hop
  · intro op hop
    rcases List.mem_cons.mp hop with rfl | hop
    · exact fun h => Op.noConfusion h
    rcases List.mem_cons.mp hop with rfl | hop
    · exact fun h => Op.noConfusion h
    · cases hop

/-! ### Claim C7 -/

/-- C7: in every reachable state every pool handle is an in-bounds index of a
live entity and no pool repeats a handle; hence the front of a non-empty pool
always addresses a live entity. -/
theorem pool_handles_valid (ops : List Op) (hv : ∀ op ∈ ops, ValidOp op) :
    PoolsOK (run ops) ∧
    (∀ idx rest, (run ops).globalPool = idx :: rest →
      idx < (run ops).students.length) ∧
    (∀ g idx rest, (run ops).groupPools g = idx :: rest →
      idx < (run ops).students.length) := by
  have h := run_inv ops hv
  refine ⟨h.1, ?_, ?_⟩
  · intro idx rest hp
    exact (hp ▸ h.1.1).2 idx (List.mem_cons_self idx rest)
  · intro g idx rest hp
    exact (hp ▸ h.1.2 g).2 idx (List.mem_cons_self idx rest)

/-- Witness for C7 at a concrete operation sequence. -/
theorem pool_handles_valid_witness :
    PoolsOK (run [Op.insert "a" "g" true, Op.draw none id]) ∧
    (∀ idx rest,
      (run [Op.insert "a" "g" true, Op.draw none id]).globalPool = idx :: rest →
      idx < (run [Op.insert "a" "g" true, Op.draw none id]).students.length) ∧
    (∀ g idx rest,
      (run [Op.insert "a" "g" true, Op.draw none id]).groupPools g = idx :: rest →
      idx < (run [Op.insert "a" "g" true, Op.draw none id]).students.length) := by
  apply pool_handles_valid
  intro op hop
  rcases List.mem_cons.mp hop with rfl | hop
  · trivial
  rcases List.mem_cons.mp hop with rfl | hop
  · exact fun l => List.Perm.refl l
  · cases hop

/-! ### Claim C4 -/

/-- C4: a successful insert with pool refresh enabled, and an import from an
openable source, both clear the global pool and every group pool. -/
theorem pools_cleared_on_mutation (s : RosterState) (n g : String)
    (lines : List String) (hins : (addStudent s n g true).1 = true) :
    ((addStudent s n g true).2.globalPool = [] ∧
      ∀ g2, (addStudent s n g true).2.groupPools g2 = []) ∧
    ((importFromFile s lines).1.globalPool = [] ∧
      ∀ g2, (importFromFile s lines).1.groupPools g2 = []) := by
  constructor
  · by_cases hdup : s.students.any (fun st => st.name == n) = true
    · rw [addStudent_dup s n g true
        (by rcases List.any_eq_true.mp hdup with ⟨st, hst, hx⟩
            exact ⟨st, hst, by simpa using hx⟩)] at hins
      cases hins
    · have hnew : s.students.any (fun st => st.name == n) = false :=
        Bool.eq_false_iff.mpr hdup
      rw [addStudent_new s n g true
        (by intro st hst hx
            rw [Bool.eq_false_iff] at hnew
            exact hnew (any_name_true s n ⟨st, hst, hx⟩))]
      exact ⟨rfl, fun g2 => rfl⟩
  · exact ⟨rfl, fun g2 => rfl⟩

/-- Witness for C4 at a concrete insert and import. -/
theorem pools_cleared_on_mutation_witness :
    (addStudent initState "a" "g" true).1 = true ∧
    (((addStudent initState "a" "g" true).2.globalPool = [] ∧
      ∀ g2, (addStudent initState "a" "g" true).2.groupPools g2 = []) ∧
    ((importFromFile initState ["x,y"]).1.globalPool = [] ∧
      ∀ g2, (importFromFile initState ["x,y"]).1.groupPools g2 = [])) :=
  ⟨rfl, pools_cleared_on_mutation initState "a" "g" ["x,y"] rfl⟩

end Roster

namespace Roster

/-! ### Claim C6 -/

/-- C6: inserting an already-present identity fails for any group argument and
changes nothing; inserting a fresh identity appends a zero-counter entity and
returns true. -/
theorem insert_uniqueness (s : RosterState) (n g : String) (rp : Bool) :
    ((∃ st ∈ s.students, st.name = n) → addStudent s n g rp = (false, s)) ∧
    ((∀ st ∈ s.students, st.name ≠ n) →
      (addStudent s n g rp).1 = true ∧
      (addStudent s n g rp).2.students = s.students ++ [⟨n, g, 0⟩]) := by
  constructor
  · exact addStudent_dup s n g rp
  · intro hnone
    rw [addStudent_new s n g rp hnone]
    exact ⟨rfl, by cases rp <;> rfl⟩

/-- Witness for C6: duplicate insert on a one-entity store, fresh insert on
the empty store. -/
theorem insert_uniqueness_witness :
    addStudent (run [Op.insert "Alice" "A1" true]) "Alice" "B2" false =
      (false, run [Op.insert "Alice" "A1" true]) ∧
    (addStudent initState "Bob" "B2" true).1 = true ∧
    (addStudent initState "Bob" "B2" true).2.students =
      initState.students ++ [⟨"Bob", "B2", 0⟩] := by
  refine ⟨(insert_uniqueness _ "Alice" "B2" false).1 ?_,
          (insert_uniqueness initState "Bob" "B2" true).2 ?_⟩
  · refine ⟨⟨"Alice", "A1", 0⟩, ?_, rfl⟩
    have hs : (run [Op.insert "Alice" "A1" true]).students =
        [⟨"Alice", "A1", 0⟩] := rfl
    rw [hs]
    exact List.mem_singleton.mpr rfl
  · intro st hst
    exact absurd hst (List.not_mem_nil st)

/-! ### Claim C9 -/

/-- C9: a duplicate insert is a complete no-op on the state — students,
history, global pool and all group pools — for either value of the
pool-invalidation flag. -/
theorem duplicate_insert_frame (s : RosterState) (n g : String) (rp : Bool)
    (h : ∃ st ∈ s.students, st.name = n) :
    addStudent s n g rp = (false, s) :=
  addStudent_dup s n g rp h

/-- Witness for C9 at a concrete duplicate insert with invalidation enabled. -/
theorem duplicate_insert_frame_witness :
    addStudent (run [Op.insert "Alice" "A1" true]) "Alice" "ZZ" true =
      (false, run [Op.insert "Alice" "A1" true]) := by
  apply duplicate_insert_frame
  refine ⟨⟨"Alice", "A1", 0⟩, ?_, rfl⟩
  have hs : (run [Op.insert "Alice" "A1" true]).students =
      [⟨"Alice", "A1", 0⟩] := rfl
  rw [hs]
  exact List.mem_singleton.mpr rfl

/-! ### Claim C10 -/

/-- C10: the core insert validates nothing: an empty identity or an empty
group string is accepted and stored verbatim (the non-empty checks live only
in the menu layer, which is outside the core). -/
theorem insert_no_validation (s : RosterState) (n g : String) (rp : Bool) :
    ((∀ st ∈ s.students, st.name ≠ "") →
      (addStudent s "" g rp).1 = true ∧
      (addStudent s "" g rp).2.students = s.students ++ [⟨"", g, 0⟩]) ∧
    ((∀ st ∈ s.students, st.name ≠ n) →
      (addStudent s n "" rp).1 = true ∧
      (addStudent s n "" rp).2.students = s.students ++ [⟨n, "", 0⟩]) := by
  constructor <;> intro h <;> rw [addStudent_new _ _ _ _ h] <;>
    exact ⟨rfl, by cases rp <;> rfl⟩

/-- Witness for C10 on the empty store. -/
theorem insert_no_validation_witness :
    ((addStudent initState "" "G" true).1 = true ∧
      (addStudent initState "" "G" true).2.students =
        initState.students ++ [⟨"", "G", 0⟩]) ∧
    ((addStudent initState "N" "" true).1 = true ∧
      (addStudent initState "N" "" true).2.students =
        initState.students ++ [⟨"N", "", 0⟩]) :=
  ⟨(insert_no_validation initState "N" "G" true).1
      (fun st hst => absurd hst (List.not_mem_nil st)),
   (insert_no_validation initState "N" "G" true).2
      (fun st hst => absurd hst (List.not_mem_nil st))⟩

/-! ### Claim C5 -/

/-- C5: the concrete bulk import on the empty store yields added=2,
duplicates=1, malformed=2 and leaves exactly Alice(A1) and Bob(B2), both with
a zero counter. -/
theorem import_classification :
    (importFromFile initState
      ["Alice, A1", "", "# comment", "Bob,B2", "Bob,B2", "bad-line", "  ,  "]).2 =
      ⟨2, 1, 2⟩ ∧
    (importFromFile initState
      ["Alice, A1", "", "# comment", "Bob,B2", "Bob,B2", "bad-line", "  ,  "]).1.students =
      [⟨"Alice", "A1", 0⟩, ⟨"Bob", "B2", 0⟩] := by
  exact ⟨rfl, rfl⟩

end Roster

namespace Roster

/-! ### Claim C3 -/

lemma mem_groupIndices (l : List Student) (g : String) (i : Nat) :
    i ∈ groupIndices l g ↔
      i < l.length ∧ (l.getD i dummyStudent).group = g := by
  simp [groupIndices, List.mem_filter, List.mem_range]

lemma map_getD_range (l : List Student) :
    (List.range l.length).map (fun i => l.getD i dummyStudent) = l := by
  induction l with
  | nil => rfl
  | cons a l ih =>
      rw [List.length_cons, List.range_succ_eq_map, List.map_cons, List.map_map]
      have htail : (List.range l.length).map
          ((fun i => (a :: l).getD i dummyStudent) ∘ Nat.succ) =
          (List.range l.length).map (fun i => l.getD i dummyStudent) := rfl
      rw [htail, ih]
      rfl

lemma groupIndices_cons (a : Student) (l : List Student) (g : String) :
    groupIndices (a :: l) g =
      (if a.group == g then [0] else []) ++ (groupIndices l g).map Nat.succ := by
  rw [groupIndices, List.length_cons, List.range_succ_eq_map, List.filter_cons]
  have hcomp : ((List.range l.length).map Nat.succ).filter
      (fun i => ((a :: l).getD i dummyStudent).group == g) =
      ((List.range l.length).filter
        (fun i => (l.getD i dummyStudent).group == g)).map Nat.succ := by
    rw [List.filter_map]
    rfl
  rw [hcomp]
  by_cases hg : (a.group == g) = true
  · simp only [List.getD_cons_zero, hg, if_true]
    rfl
  · simp only [List.getD_cons_zero, Bool.not_eq_true] at hg
    simp only [List.getD_cons_zero, hg]
    rfl

lemma map_getD_groupIndices (l : List Student) (g : String) :
    (groupIndices l g).map (fun i => l.getD i dummyStudent) =
      l.filter (fun st => st.group == g) := by
  induction l with
  | nil => rfl
  | cons a l ih =>
      rw [groupIndices_cons, List.map_append, List.map_map, List.filter_cons]
      have htail : (groupIndices l g).map
          ((fun i => (a :: l).getD i dummyStudent) ∘ Nat.succ) =
          (groupIndices l g).map (fun i => l.getD i dummyStudent) := rfl
      rw [htail, ih]
      by_cases hg : (a.group == g) = true
      · simp only [hg, if_true, List.map_cons, List.map_nil]
        rfl
      · simp only [Bool.not_eq_true] at hg
        simp only [hg, List.map_nil, List.nil_append]
        rfl

/-- C3: a replenish installs exactly the live membership of the scope: the
global refill is a permutation of all store indices (hence of all entities),
and a group refill is a permutation of precisely the indices whose student
has that group (hence of the group's entities). -/
theorem replenish_completeness (s : RosterState) (g : String)
    (sh : List Nat → List Nat) (hsh : ValidSh sh) :
    ((refillGlobalPool s sh).globalPool).Perm (List.range s.students.length) ∧
    (((refillGlobalPool s sh).globalPool).map
        (fun i => s.students.getD i dummyStudent)).Perm s.students ∧
    ((refillGroupPool s g sh).groupPools g).Perm (groupIndices s.students g) ∧
    (((refillGroupPool s g sh).groupPools g).map
        (fun i => s.students.getD i dummyStudent)).Perm
      (s.students.filter (fun st => st.group == g)) ∧
    (∀ i, i ∈ groupIndices s.students g ↔
      i < s.students.length ∧ (s.students.getD i dummyStudent).group = g) := by
  have h1 : ((refillGlobalPool s sh).globalPool).Perm
      (List.range s.students.length) := hsh _
  have h3 : ((refillGroupPool s g sh).groupPools g).Perm
      (groupIndices s.students g) := by
    rw [refillGroupPool]
    by_cases hi : (groupIndices s.students g).isEmpty = true
    · simp only [hi, if_true, groupPools_setGroupPool_self]
      rw [List.isEmpty_iff.mp hi]
    · simp only [hi, Bool.false_eq_true, if_false, groupPools_setGroupPool_self]
      exact hsh _
  refine ⟨h1, ?_, h3, ?_, mem_groupIndices s.students g⟩
  · have h2 := h1.map (fun i => s.students.getD i dummyStudent)
    rw [map_getD_range] at h2
    exact h2
  · have h4 := h3.map (fun i => s.students.getD i dummyStudent)
    rw [map_getD_groupIndices] at h4
    exact h4

/-- Witness for C3 at a concrete two-student store. -/
theorem replenish_completeness_witness :
    ((refillGlobalPool (run [Op.insert "Alice" "A1" true]) id).globalPool).Perm
      (List.range (run [Op.insert "Alice" "A1" true]).students.length) ∧
    (((refillGlobalPool (run [Op.insert "Alice" "A1" true]) id).globalPool).map
        (fun i => (run [Op.insert "Alice" "A1" true]).students.getD i dummyStudent)).Perm
      (run [Op.insert "Alice" "A1" true]).students ∧
    ((refillGroupPool (run [Op.insert "Alice" "A1" true]) "A1" id).groupPools "A1").Perm
      (groupIndices (run [Op.insert "Alice" "A1" true]).students "A1") ∧
    (((refillGroupPool (run [Op.insert "Alice" "A1" true]) "A1" id).groupPools "A1").map
        (fun i => (run [Op.insert "Alice" "A1" true]).students.getD i dummyStudent)).Perm
      ((run [Op.insert "Alice" "A1" true]).students.filter
        (fun st => st.group == "A1")) ∧
    (∀ i, i ∈ groupIndices (run [Op.insert "Alice" "A1" true]).students "A1" ↔
      i < (run [Op.insert "Alice" "A1" true]).students.length ∧
      ((run [Op.insert "Alice" "A1" true]).students.getD i dummyStudent).group = "A1") :=
  replenish_completeness (run [Op.insert "Alice" "A1" true]) "A1" id
    (fun l => List.Perm.refl l)

end Roster

namespace Roster

/-! ### Claim C8 -/

lemma pickRandom_global_refill_nil (s : RosterState) (sh : List Nat → List Nat)
    (hs : s.students.isEmpty = false) (hp : s.globalPool = [])
    (hr : sh (List.range s.students.length) = []) :
    pickRandom s none sh = (none, refillGlobalPool s sh) := by
  simp [pickRandom, hs, hp, refillGlobalPool, hr]

lemma pickRandom_group_refill_nil (s : RosterState) (g : String)
    (sh : List Nat → List Nat) (hs : s.students.isEmpty = false)
    (hp : s.groupPools g = []) (hgi : groupIndices s.students g ≠ [])
    (hr : sh (groupIndices s.students g) = []) :
    pickRandom s (some g) sh = (none, setGroupPool s g []) := by
  have hni : (groupIndices s.students g).isEmpty = false := by
    cases hgi2 : groupIndices s.students g with
    | nil => exact absurd hgi2 hgi
    | cons a l => simp
  simp [pickRandom, hs, hp, refillGroupPool, hni, hr, groupPools_setGroupPool_self]

/-- A successful draw appends exactly one record, naming the student it
returned, to the history. -/
lemma pickRandom_some_history (s : RosterState) (g : Option String)
    (sh : List Nat → List Nat) (st : Student) (s2 : RosterState)
    (h : pickRandom s g sh = (some st, s2)) :
    s2.history = s.history ++ [⟨st.name, st.group⟩] := by
  by_cases hse : s.students.isEmpty = true
  · rw [pickRandom_empty_store s g sh hse] at h
    simp at h
  · have hs : s.students.isEmpty = false := Bool.eq_false_iff.mpr hse
    cases g with
    | none =>
        cases hgp : s.globalPool with
        | cons i rest =>
            rw [pickRandom_global_cons s sh hs i rest hgp] at h
            obtain ⟨h1, h2⟩ := Prod.mk.injEq _ _ _ _ ▸ h
            rw [← h2, ← Option.some.inj h1]
            rfl
        | nil =>
            cases hr : sh (List.range s.students.length) with
            | nil =>
                rw [pickRandom_global_refill_nil s sh hs hgp hr] at h
                simp at h
            | cons i rest =>
                rw [pickRandom_global_refill_cons s sh hs i rest hgp hr] at h
                obtain ⟨h1, h2⟩ := Prod.mk.injEq _ _ _ _ ▸ h
                rw [← h2, ← Option.some.inj h1]
                rfl
    | some gr =>
        cases hgp : s.groupPools gr with
        | cons i rest =>
            rw [pickRandom_group_cons s gr sh hs i rest hgp] at h
            obtain ⟨h1, h2⟩ := Prod.mk.injEq _ _ _ _ ▸ h
            rw [← h2, ← Option.some.inj h1]
            rfl
        | nil =>
            cases hgi : groupIndices s.students gr with
            | nil =>
                rw [pickRandom_group_refill_empty s gr sh hs hgp hgi] at h
                simp at h
            | cons j l =>
                cases hr : sh (groupIndices s.students gr) with
                | nil =>
                    rw [pickRandom_group_refill_nil s gr sh hs hgp
                      (by rw [hgi]; exact List.cons_ne_nil j l) hr] at h
                    simp at h
                | cons i rest =>
                    rw [pickRandom_group_refill_cons s gr sh hs i rest hgp
                      (by rw [hgi]; exact List.cons_ne_nil j l) hr] at h
                    obtain ⟨h1, h2⟩ := Prod.mk.injEq _ _ _ _ ▸ h
                    rw [← h2, ← Option.some.inj h1]
                    rfl

lemma historyTake_zero (l : List CallRecord) (c : Nat) :
    historyTake 0 l c = l := by
  induction l generalizing c with
  | nil => rfl
  | cons r rest ih => simp [historyTake, ih]

lemma historyTake_take (limit : Nat) (hpos : 0 < limit) (l : List CallRecord) :
    ∀ c : Nat, c < limit → historyTake limit l c = l.take (limit - c) := by
  induction l with
  | nil => intro c _; simp [historyTake]
  | cons r rest ih =>
      intro c hc
      by_cases hend : c + 1 ≥ limit
      · have hone : limit - c = 1 := by omega
        simp [historyTake, Nat.pos_iff_ne_zero.mp hpos, hend, hone]
      · have h2 : c + 1 < limit := by omega
        have hsplit : limit - c = (limit - (c + 1)) + 1 := by omega
        simp [historyTake, hend, ih (c + 1) h2, hsplit]

/-- C8: querying the history yields the most recent records first — all of
them at limit zero, the `limit` most recent at a positive limit; after three
successful draws, limit 2 yields the third then the second record. -/
theorem history_query_ordering (s s1 s2 s3 : RosterState)
    (g1 g2 g3 : Option String) (sh1 sh2 sh3 : List Nat → List Nat)
    (st1 st2 st3 : Student)
    (h1 : pickRandom s g1 sh1 = (some st1, s1))
    (h2 : pickRandom s1 g2 sh2 = (some st2, s2))
    (h3 : pickRandom s2 g3 sh3 = (some st3, s3)) (limit : Nat) :
    queryHistory s3 0 = s3.history.reverse ∧
    (0 < limit → queryHistory s3 limit = s3.history.reverse.take limit) ∧
    queryHistory s3 2 = [⟨st3.name, st3.group⟩, ⟨st2.name, st2.group⟩] := by
  have e1 := pickRandom_some_history s g1 sh1 st1 s1 h1
  have e2 := pickRandom_some_history s1 g2 sh2 st2 s2 h2
  have e3 := pickRandom_some_history s2 g3 sh3 st3 s3 h3
  refine ⟨historyTake_zero _ _, fun hpos => historyTake_take limit hpos _ 0 hpos, ?_⟩
  rw [queryHistory, historyTake_take 2 (by omega) _ 0 (by omega)]
  rw [e3, e2, e1]
  simp

/-- Witness for C8: three concrete global draws on a two-student store. -/
theorem history_query_ordering_witness :
    queryHistory (pickRandom (pickRandom (pickRandom
        (run [Op.insert "Alice" "A1" true, Op.insert "Bob" "B2" true])
        none id).2 none id).2 none id).2 0 =
      (pickRandom (pickRandom (pickRandom
        (run [Op.insert "Alice" "A1" true, Op.insert "Bob" "B2" true])
        none id).2 none id).2 none id).2.history.reverse ∧
    (0 < 2 → queryHistory (pickRandom (pickRandom (pickRandom
        (run [Op.insert "Alice" "A1" true, Op.insert "Bob" "B2" true])
        none id).2 none id).2 none id).2 2 =
      (pickRandom (pickRandom (pickRandom
        (run [Op.insert "Alice" "A1" true, Op.insert "Bob" "B2" true])
        none id).2 none id).2 none id).2.history.reverse.take 2) ∧
    queryHistory (pickRandom (pickRandom (pickRandom
        (run [Op.insert "Alice" "A1" true, Op.insert "Bob" "B2" true])
        none id).2 none id).2 none id).2 2 =
      [⟨"Alice", "A1"⟩, ⟨"Bob", "B2"⟩] :=
  history_query_ordering
    (run [Op.insert "Alice" "A1" true, Op.insert "Bob" "B2" true])
    (pickRandom (run [Op.insert "Alice" "A1" true, Op.insert "Bob" "B2" true])
      none id).2
    (pickRandom (pickRandom
      (run [Op.insert "Alice" "A1" true, Op.insert "Bob" "B2" true])
      none id).2 none id).2
    (pickRandom (pickRandom (pickRandom
      (run [Op.insert "Alice" "A1" true, Op.insert "Bob" "B2" true])
      none id).2 none id).2 none id).2
    none none none id id id
    ⟨"Alice", "A1", 1⟩ ⟨"Bob", "B2", 1⟩ ⟨"Alice", "A1", 2⟩
    rfl rfl rfl 2

end Roster

namespace Roster

/-! ### Claim C2 -/

lemma setPool_students (s : RosterState) (scope : Option String) (p : List Nat) :
    (setPool s scope p).students = s.students := by
  cases scope <;> rfl

lemma poolOf_setPool_self (s : RosterState) (scope : Option String) (p : List Nat) :
    poolOf (setPool s scope p) scope = p := by
  cases scope with
  | none => rfl
  | some g => exact groupPools_setGroupPool_self s g p

lemma poolOf_consumeIndex (s : RosterState) (idx : Nat) (scope : Option String) :
    poolOf (consumeIndex s idx).2 scope = poolOf s scope := by
  cases scope <;> rfl

lemma scopeIndices_nodup (s : RosterState) (scope : Option String) :
    (scopeIndices s scope).Nodup := by
  cases scope with
  | none => exact List.nodup_range _
  | some g => exact (poolOK_groupIndices s.students g).1

lemma scopeIndices_bounds (s : RosterState) (scope : Option String) :
    ∀ i ∈ scopeIndices s scope, i < s.students.length := by
  cases scope with
  | none => intro i hi; exact List.mem_range.mp hi
  | some g => exact (poolOK_groupIndices s.students g).2

lemma students_nonempty_of_scope (s : RosterState) (scope : Option String)
    (hne : scopeIndices s scope ≠ []) : s.students.isEmpty = false := by
  cases hsi : scopeIndices s scope with
  | nil => exact absurd hsi hne
  | cons i l =>
      have hi : i < s.students.length :=
        scopeIndices_bounds s scope i (hsi ▸ List.mem_cons_self i l)
      cases hst : s.students with
      | nil => rw [hst] at hi; simp at hi
      | cons a l2 => simp

lemma getD_set_ne (l : List Student) (i j : Nat) (a : Student) (h : i ≠ j) :
    (l.set i a).getD j dummyStudent = l.getD j dummyStudent := by
  induction l generalizing i j with
  | nil => rfl
  | cons b l ih =>
      cases i with
      | zero =>
          cases j with
          | zero => exact absurd rfl h
          | succ j => rfl
      | succ i =>
          cases j with
          | zero => rfl
          | succ j => exact ih i j (fun hx => h (by rw [hx]))

/-- Consuming the front of a non-empty pool, expressed through `poolOf`. -/
lemma pickRandom_consume (s : RosterState) (scope : Option String)
    (sh : List Nat → List Nat) (idx : Nat) (rest : List Nat)
    (hp : poolOf s scope = idx :: rest) (hidx : idx < s.students.length) :
    pickRandom s scope sh =
      (some (consumeIndex (setPool s scope rest) idx).1,
       (consumeIndex (setPool s scope rest) idx).2) := by
  have hs : s.students.isEmpty = false := by
    cases hst : s.students with
    | nil => rw [hst] at hidx; simp at hidx
    | cons a l => simp
  cases scope with
  | none => exact pickRandom_global_cons s sh hs idx rest hp
  | some g => exact pickRandom_group_cons s g sh hs idx rest hp

/-- Replenish-then-consume, expressed through `poolOf`/`scopeIndices`. -/
lemma pickRandom_refill_consume (s : RosterState) (scope : Option String)
    (sh : List Nat → List Nat) (idx : Nat) (rest : List Nat)
    (hempty : poolOf s scope = []) (hgi : scopeIndices s scope ≠ [])
    (hr : sh (scopeIndices s scope) = idx :: rest) :
    pickRandom s scope sh =
      (some (consumeIndex (setPool s scope rest) idx).1,
       (consumeIndex (setPool s scope rest) idx).2) := by
  have hs := students_nonempty_of_scope s scope hgi
  cases scope with
  | none => exact pickRandom_global_refill_cons s sh hs idx rest hempty hr
  | some g => exact pickRandom_group_refill_cons s g sh hs idx rest hempty hgi hr

/-- Running draws against a scope whose pool currently holds the
duplicate-free, in-bounds handle list `q` returns exactly the students at the
front `shs.length` handles of `q`, each with its counter bumped. -/
lemma drawSeq_consume_run (scope : Option String) :
    ∀ (shs : List (List Nat → List Nat)) (s : RosterState) (q : List Nat),
      poolOf s scope = q → q.Nodup → (∀ i ∈ q, i < s.students.length) →
      shs.length ≤ q.length →
      (drawSeq scope s shs).1 =
        (q.take shs.length).map (fun i =>
          some { s.students.getD i dummyStudent with
                   callCount := (s.students.getD i dummyStudent).callCount + 1 }) := by
  intro shs
  induction shs with
  | nil => intro s q _ _ _ _; simp [drawSeq]
  | cons sh shs2 ih =>
      intro s q hq hnd hb hlen
      cases q with
      | nil => simp at hlen
      | cons idx rest =>
          have hidx : idx < s.students.length :=
            hb idx (List.mem_cons_self idx rest)
          have hpick := pickRandom_consume s scope sh idx rest hq hidx
          have hstu : (consumeIndex (setPool s scope rest) idx).2.students =
              s.students.set idx
                { s.students.getD idx dummyStudent with
                    callCount := (s.students.getD idx dummyStudent).callCount + 1 } := by
            cases scope <;> rfl
          have hrec := ih (consumeIndex (setPool s scope rest) idx).2 rest
            (by rw [poolOf_consumeIndex, poolOf_setPool_self])
            hnd.of_cons
            (by intro i hi
                rw [hstu, List.length_set]
                exact hb i (List.mem_cons_of_mem idx hi))
            (by simpa using Nat.le_of_succ_le_succ hlen)
          have hmap : (rest.take shs2.length).map (fun i =>
              some { (consumeIndex (setPool s scope rest) idx).2.students.getD i
                        dummyStudent with
                       callCount :=
                        ((consumeIndex (setPool s scope rest) idx).2.students.getD i
                          dummyStudent).callCount + 1 }) =
              (rest.take shs2.length).map (fun i =>
              some { s.students.getD i dummyStudent with
                       callCount :=
                        (s.students.getD i dummyStudent).callCount + 1 }) := by
            apply List.map_congr_left
            intro i hi
            have hir : i ∈ rest := List.mem_of_mem_take hi
            have hne : idx ≠ i := fun hx => (List.nodup_cons.mp hnd).1 (hx ▸ hir)
            rw [hstu, getD_set_ne s.students idx i _ hne]
          have hhead : (consumeIndex (setPool s scope rest) idx).1 =
              { s.students.getD idx dummyStudent with
                  callCount := (s.students.getD idx dummyStudent).callCount + 1 } := by
            cases scope <;> rfl
          show (drawSeq scope s (sh :: shs2)).1 = _
          simp only [drawSeq, hpick]
          rw [hrec, hmap, hhead]
          rfl

lemma setPool_setPool (s : RosterState) (scope : Option String)
    (p q : List Nat) :
    setPool (setPool s scope p) scope q = setPool s scope q := by
  cases scope with
  | none => rfl
  | some g => exact setGroupPool_setGroupPool s g p q

lemma nodup_map_getD_name (l : List Student) (I : List Nat)
    (hn : (l.map Student.name).Nodup) (hI : I.Nodup)
    (hb : ∀ i ∈ I, i < l.length) :
    (I.map (fun i => some ((l.getD i dummyStudent).name))).Nodup := by
  refine List.Nodup.map_on ?_ hI
  intro i hi j hj heq
  have hi2 := hb i hi
  have hj2 := hb j hj
  have heq2 : (l.getD i dummyStudent).name = (l.getD j dummyStudent).name :=
    Option.some.inj heq
  rw [List.getD_eq_getElem l dummyStudent hi2,
      List.getD_eq_getElem l dummyStudent hj2] at heq2
  have hmi : i < (l.map Student.name).length := by simpa using hi2
  have hmj : j < (l.map Student.name).length := by simpa using hj2
  have key : (l.map Student.name)[i] = (l.map Student.name)[j] := by
    rw [List.getElem_map, List.getElem_map]
    exact heq2
  exact hn.getElem_inj_iff.mp key

lemma mem_scopeIndices (s : RosterState) (scope : Option String) (i : Nat) :
    i ∈ scopeIndices s scope ↔
      i < s.students.length ∧
      ∀ g, scope = some g → (s.students.getD i dummyStudent).group = g := by
  cases scope with
  | none =>
      simp [scopeIndices, List.mem_range]
  | some g =>
      rw [scopeIndices, mem_groupIndices]
      constructor
      · rintro ⟨h1, h2⟩
        exact ⟨h1, fun g2 hg2 => by cases hg2; exact h2⟩
      · rintro ⟨h1, h2⟩
        exact ⟨h1, h2 g rfl⟩

/-- C2 (amended): starting at a cycle boundary — a reachable state whose
addressed pool is empty — a run of draws against one fixed scope with no
intervening operation returns no entity twice within the scope's size many
draws, and exactly that many draws cover the scope's live membership once
each. (From a mid-cycle state the property as literally claimed fails; see
the counterexample.) -/
theorem no_repeat_before_exhaustion (ops : List Op)
    (hv : ∀ op ∈ ops, ValidOp op) (scope : Option String)
    (hempty : poolOf (run ops) scope = [])
    (shs : List (List Nat → List Nat)) (hshs : ∀ sh ∈ shs, ValidSh sh)
    (hlen : shs.length ≤ (scopeIndices (run ops) scope).length) :
    (∀ o ∈ (drawSeq scope (run ops) shs).1, o ≠ none) ∧
    ((drawSeq scope (run ops) shs).1.map (Option.map Student.name)).Nodup ∧
    (shs.length = (scopeIndices (run ops) scope).length →
      ((drawSeq scope (run ops) shs).1.map (Option.map Student.name)).Perm
        ((scopeIndices (run ops) scope).map
          (fun i => some (((run ops).students.getD i dummyStudent).name)))) ∧
    (∀ i, i ∈ scopeIndices (run ops) scope ↔
      i < (run ops).students.length ∧
      ∀ g, scope = some g →
        ((run ops).students.getD i dummyStudent).group = g) := by
  have hinv := run_inv ops hv
  cases shs with
  | nil =>
      refine ⟨by simp [drawSeq], by simp [drawSeq], ?_, mem_scopeIndices _ _⟩
      intro h0
      have hsi : scopeIndices (run ops) scope = [] :=
        List.length_eq_zero.mp h0.symm
      simp [drawSeq, hsi]
  | cons sh shs2 =>
      have hne : scopeIndices (run ops) scope ≠ [] := by
        intro h0
        rw [h0] at hlen
        simp at hlen
      have hperm := hshs sh (List.mem_cons_self sh shs2)
      cases hr : sh (scopeIndices (run ops) scope) with
      | nil =>
          exfalso
          have hp2 := hperm (scopeIndices (run ops) scope)
          rw [hr] at hp2
          exact hne hp2.symm.eq_nil
      | cons idx rest =>
          have hp2 := hperm (scopeIndices (run ops) scope)
          rw [hr] at hp2
          have hq_nodup : (idx :: rest).Nodup :=
            hp2.nodup_iff.mpr (scopeIndices_nodup _ _)
          have hq_b : ∀ i ∈ idx :: rest, i < (run ops).students.length :=
            fun i hi => scopeIndices_bounds _ _ i (hp2.subset hi)
          have hidx := hq_b idx (List.mem_cons_self idx rest)
          have hpick := pickRandom_refill_consume (run ops) scope sh idx rest
            hempty hne hr
          have hidx2 : idx <
              (setPool (run ops) scope (idx :: rest)).students.length := by
            rw [setPool_students]; exact hidx
          have hfirst : pickRandom (run ops) scope sh =
              pickRandom (setPool (run ops) scope (idx :: rest)) scope sh := by
            rw [hpick, pickRandom_consume (setPool (run ops) scope (idx :: rest))
              scope sh idx rest (poolOf_setPool_self _ _ _) hidx2,
              setPool_setPool]
          have hds : drawSeq scope (run ops) (sh :: shs2) =
              drawSeq scope (setPool (run ops) scope (idx :: rest)) (sh :: shs2) := by
            simp only [drawSeq, hfirst]
          have hlen2 : (sh :: shs2).length ≤ (idx :: rest).length := by
            rw [hp2.length_eq]
            exact hlen
          have hrun := drawSeq_consume_run scope (sh :: shs2)
            (setPool (run ops) scope (idx :: rest)) (idx :: rest)
            (poolOf_setPool_self _ _ _)
            hq_nodup
            (by intro i hi; rw [setPool_students]; exact hq_b i hi)
            hlen2
          rw [setPool_students] at hrun
          have hout : (drawSeq scope (run ops) (sh :: shs2)).1 =
              ((idx :: rest).take (sh :: shs2).length).map (fun i =>
                some { (run ops).students.getD i dummyStudent with
                         callCount :=
                          ((run ops).students.getD i dummyStudent).callCount + 1 }) := by
            rw [hds, hrun]
          have hcomp : (Option.map Student.name) ∘ (fun i =>
              some { (run ops).students.getD i dummyStudent with
                       callCount :=
                        ((run ops).students.getD i dummyStudent).callCount + 1 }) =
              (fun i => some (((run ops).students.getD i dummyStudent).name)) := rfl
          refine ⟨?_, ?_, ?_, mem_scopeIndices _ _⟩
          · rw [hout]
            intro o ho
            rcases List.mem_map.mp ho with ⟨i, -, rfl⟩
            simp
          · rw [hout, List.map_map, hcomp]
            exact nodup_map_getD_name _ _ hinv.2
              ((List.take_sublist _ _).nodup hq_nodup)
              (fun i hi => hq_b i (List.mem_of_mem_take hi))
          · intro hk
            have hk2 : (sh :: shs2).length = (idx :: rest).length := by
              rw [hp2.length_eq]
              exact hk
            have htake : (idx :: rest).take (sh :: shs2).length = idx :: rest := by
              rw [hk2]
              exact List.take_length _
            rw [hout, htake, List.map_map, hcomp]
            exact hp2.map _

end Roster

namespace Roster

/-- C2 counterexample: in the reachable mid-cycle state left by
insert A; insert B; one draw (which consumed B), a two-draw sequence against
the fixed global scope with valid shuffles and no intervening mutation
returns entity A twice while entity B — a live member of the scope — is
never returned, refuting the claim for arbitrary starting states. -/
theorem no_repeat_counterexample :
    (∀ op ∈ [Op.insert "A" "g" true, Op.insert "B" "g" true,
              Op.draw none List.reverse], ValidOp op) ∧
    ValidSh id ∧
    ((drawSeq none (run [Op.insert "A" "g" true, Op.insert "B" "g" true,
        Op.draw none List.reverse]) [id, id]).1.map (Option.map Student.name) =
      [some "A", some "A"]) ∧
    "B" ∈ (run [Op.insert "A" "g" true, Op.insert "B" "g" true,
        Op.draw none List.reverse]).students.map Student.name ∧
    some "B" ∉ ((drawSeq none (run [Op.insert "A" "g" true,
        Op.insert "B" "g" true, Op.draw none List.reverse])
        [id, id]).1.map (Option.map Student.name)) := by
  refine ⟨?_, fun l => List.Perm.refl l, rfl, by decide, by decide⟩
  intro op hop
  rcases List.mem_cons.mp hop with rfl | hop
  · trivial
  rcases List.mem_cons.mp hop with rfl | hop
  · trivial
  rcases List.mem_cons.mp hop with rfl | hop
  · exact fun l => List.reverse_perm l
  · cases hop

/-- Witness for C2 (amended): two draws from a fresh global cycle on a
two-student store. -/
theorem no_repeat_before_exhaustion_witness :
    (∀ o ∈ (drawSeq none
        (run [Op.insert "Alice" "A1" true, Op.insert "Bob" "B2" true])
        [id, id]).1, o ≠ none) ∧
    ((drawSeq none
        (run [Op.insert "Alice" "A1" true, Op.insert "Bob" "B2" true])
        [id, id]).1.map (Option.map Student.name)).Nodup ∧
    (([(id : List Nat → List Nat), id]).length =
        (scopeIndices
          (run [Op.insert "Alice" "A1" true, Op.insert "Bob" "B2" true])
          none).length →
      ((drawSeq none
          (run [Op.insert "Alice" "A1" true, Op.insert "Bob" "B2" true])
          [id, id]).1.map (Option.map Student.name)).Perm
        ((scopeIndices
            (run [Op.insert "Alice" "A1" true, Op.insert "Bob" "B2" true])
            none).map
          (fun i => some
            ((List.getD
                (run [Op.insert "Alice" "A1" true, Op.insert "Bob" "B2" true]).students
                i dummyStudent).name)))) ∧
    (∀ i, i ∈ scopeIndices
        (run [Op.insert "Alice" "A1" true, Op.insert "Bob" "B2" true]) none ↔
      i < (run [Op.insert "Alice" "A1" true, Op.insert "Bob" "B2" true]).students.length ∧
      ∀ g, none = some g →
        (List.getD
          (run [Op.insert "Alice" "A1" true, Op.insert "Bob" "B2" true]).students
          i dummyStudent).group = g) := by
  apply no_repeat_before_exhaustion
    [Op.insert "Alice" "A1" true, Op.insert "Bob" "B2" true]
    ?_ none rfl [id, id] ?_ (by decide)
  · intro op hop
    rcases List.mem_cons.mp hop with rfl | hop
    · trivial
    rcases List.mem_cons.mp hop with rfl | hop
    · trivial
    · cases hop
  · intro sh hsh
    rcases List.mem_cons.mp hsh with rfl | hsh
    · exact fun l => List.Perm.refl l
    rcases List.mem_cons.mp hsh with rfl | hsh
    · exact fun l => List.Perm.refl l
    · cases hsh

end Roster
